import Mathlib

/-!
Shallow embedding of the task registry and execution engine of
`nextgen_system` (`src/nextgen_system/orchestration/registry.py`), together
with the run-store finalize operation it issues against the `task_runs`
table (`src/nextgen_system/persistence/database.py`).

Modelling choices:
* The Python dict `TaskRegistry._tasks` is an association list with the
  dict's insert-or-replace semantics (`register`), `dict.get` lookup
  (`lookupTask`) and `sorted(keys)` listing (`list_tasks`).
* `uuid.uuid4().hex` is modelled by a fresh-identifier counter `nextId`
  threaded through the state: each created run gets the current counter
  value as its `run_id` (uuid hex strings are collision-free identifiers;
  the counter models exactly that freshness).  The Python function's
  string return value is modelled by `Ret`: `Ret.rid i` stands for the
  hex string of run identifier `i`, and `Ret.empty` stands for the empty
  string `""` returned by the de-duplication branch.
* Timestamps (`CURRENT_TIMESTAMP` on insert, `datetime.utcnow()` on
  finalize) are modelled by a logical clock `clock` that advances by one
  at every table write; both real clocks are monotone, which is all the
  claims use.
* A task body (`task["func"]`) is opaque to the registry: invoking it
  either returns an optional JSON-serialisable payload or raises with a
  message (`BodyResult`).  `json.dumps` is modelled by `Json.dumps` and
  `traceback.format_exc()` by the fixed diagnostic-trace text appended by
  `formatError` (the registry stores `f"{exc}\n{traceback.format_exc()}"`).
* The SQLite table `task_runs` is the list `records`; the `INSERT` and
  `UPDATE ... WHERE run_id = ?` statements issued by `run_task` are the
  appends and `finalize` below.  In addition the state carries a ghost
  trace `events` recording every insert, finalize and body invocation in
  order; it never influences control flow and exists only so ordering and
  counting properties can be stated.
* Python's unbounded recursion is modelled with a fuel parameter: `exec`
  consumes one unit of fuel per internal step and answers `fuelOut` when
  it runs out, which models the stack exhaustion the spec documents for
  cyclic dependency graphs.  All claims are about runs that do not run
  out of fuel.
* The first line of `run_task`, `_executed = _executed or set()`, rebinds
  the local name to a fresh set whenever the incoming set is empty — a
  Python empty set is falsy — and only keeps (and therefore shares) a
  non-empty incoming set.  Since `_executed.add(name)` runs only at the
  very end of a frame, every recursive call inside a top-level run
  receives an empty set, so the de-duplication set is never shared
  between frames of one run.  `frameResult` models this faithfully: a
  frame entered with an empty set runs on that same (empty) value but its
  additions are discarded on exit, while a frame entered with a non-empty
  set is threaded through as truly shared state.
-/

namespace NextGen

/-- JSON values: the payload universe for task-body results
(`Optional[Dict]` return values serialised with `json.dumps`). -/
inductive Json where
  | null
  | bool (b : Bool)
  | num (n : Int)
  | str (s : String)
  | arr (items : List Json)
  | obj (fields : List (String × Json))

mutual

/-- Serialisation of a JSON value, following `json.dumps` default
formatting (item separator `", "`, key separator `": "`). -/
def Json.dumps : Json → String
  | .null => "null"
  | .bool true => "true"
  | .bool false => "false"
  | .num n => toString n
  | .str s => "\"" ++ s ++ "\""
  | .arr items => "[" ++ Json.dumpsArr items ++ "]"
  | .obj fields => "\x7b" ++ Json.dumpsObj fields ++ "\x7d"

/-- Serialisation of a JSON array's elements. -/
def Json.dumpsArr : List Json → String
  | [] => ""
  | [x] => Json.dumps x
  | x :: y :: xs => Json.dumps x ++ ", " ++ Json.dumpsArr (y :: xs)

/-- Serialisation of a JSON object's fields. -/
def Json.dumpsObj : List (String × Json) → String
  | [] => ""
  | [(k, v)] => "\"" ++ k ++ "\": " ++ Json.dumps v
  | (k, v) :: w :: xs =>
    "\"" ++ k ++ "\": " ++ Json.dumps v ++ ", " ++ Json.dumpsObj (w :: xs)

end

/-- What invoking a task body does: return an optional payload, or raise
an exception carrying a message.  The registry treats bodies uniformly
and only observes this outcome. -/
inductive BodyResult where
  | ok (result : Option Json)
  | raises (msg : String)

/-- The per-task entry `TaskRegistry.register` stores in `self._tasks`:
`{"func": ..., "cadence": ..., "dependencies": list(...), "description": ...}`. -/
structure TaskDef where
  func : BodyResult
  cadence : Option String
  dependencies : List String
  description : String

/-- The registry's task mapping `self._tasks` (a Python dict: unique keys,
insertion order retained). -/
abbrev Tasks := List (String × TaskDef)

/-- Dict write `self._tasks[name] = {...}`: replace the entry when the key
exists, otherwise append it. -/
def register (ts : Tasks) (name : String) (t : TaskDef) : Tasks :=
  if ts.any (fun p => p.1 == name) then
    ts.map (fun p => if p.1 == name then (name, t) else p)
  else ts ++ [(name, t)]

/-- Dict read `self._tasks.get(name)`. -/
def lookupTask (ts : Tasks) (name : String) : Option TaskDef :=
  (ts.find? (fun p => p.1 == name)).map (fun p => p.2)

/-- `TaskRegistry.list_tasks`: `sorted(self._tasks.keys())`. -/
def list_tasks (ts : Tasks) : List String :=
  (ts.map Prod.fst).mergeSort (fun a b => decide (a ≤ b))

/-- Run status values written to `task_runs.status`. -/
inductive Status where
  | RUNNING
  | SUCCESS
  | FAILED
deriving Repr, DecidableEq

/-- One row of the `task_runs` table. -/
structure RunRecord where
  run_id : Nat
  task_name : String
  status : Status
  triggered_at : Nat
  completed_at : Option Nat
  artifacts : Option String
  error : Option String
deriving Repr, DecidableEq

/-- Ghost trace events: one per table insert, per table finalize and per
body invocation, in execution order. -/
inductive Event where
  | insert (run_id : Nat) (task_name : String) (status : Status) (triggered_at : Nat)
  | final (run_id : Nat) (completed_at : Nat) (status : Status)
      (artifacts : Option String) (error : Option String)
  | invoke (task_name : String)
deriving Repr, DecidableEq

/-- The string `run_task` returns: `Ret.rid i` is the fresh run
identifier's hex string, `Ret.empty` the empty string `""` of the
de-duplication branch. -/
inductive Ret where
  | empty
  | rid (id : Nat)
deriving Repr, DecidableEq

/-- The exceptions `run_task` raises: `KeyError(f"Unknown task: {name}")`
and `RuntimeError(f"Task {name} failed; run_id={run_id}")`. -/
inductive RunError where
  | unknownTask (name : String)
  | taskFailed (name : String) (run_id : Nat)
deriving Repr, DecidableEq

/-- Mutable context of one `run_task` call tree: the `task_runs` table,
the ghost event trace, the `_executed` set (kept as the list of names in
insertion order), the fresh-identifier counter and the logical clock. -/
structure RunState where
  records : List RunRecord
  events : List Event
  executed : List String
  nextId : Nat
  clock : Nat
deriving Repr, DecidableEq

/-- How a call returns: normal return, exception, or exhaustion of the
recursion budget (Python stack exhaustion on cyclic graphs). -/
inductive RunOutcome where
  | ok (ret : Ret) (s : RunState)
  | err (e : RunError) (s : RunState)
  | fuelOut (s : RunState)
deriving Repr, DecidableEq

/-- The state visible after a call, whichever way it returned (the
database is shared, so effects survive exceptions). -/
@[simp] def RunOutcome.state : RunOutcome → RunState
  | .ok _ s => s
  | .err _ s => s
  | .fuelOut s => s

/-- Effect of the run-store finalize statement on one row:
`UPDATE task_runs SET completed_at = ?, status = ?, artifacts = ?, error = ?
WHERE run_id = ?`. -/
def finalizeRecord (rid : Nat) (completedAt : Nat) (st : Status)
    (artifacts error : Option String) (r : RunRecord) : RunRecord :=
  if r.run_id = rid then
    { r with completed_at := some completedAt, status := st,
             artifacts := artifacts, error := error }
  else r

/-- Effect of the finalize `UPDATE` on the whole `task_runs` table. -/
def finalize (recs : List RunRecord) (rid : Nat) (completedAt : Nat)
    (st : Status) (artifacts error : Option String) : List RunRecord :=
  recs.map (finalizeRecord rid completedAt st artifacts error)

/-- The error text stored on a body failure:
`f"{exc}\n{traceback.format_exc()}"`, the exception message followed by
the diagnostic trace produced by `traceback.format_exc()`. -/
def formatError (msg : String) : String :=
  msg ++ "\n" ++ "Traceback (most recent call last)"

/-- The two recursion sites of `run_task`: running one task, and the
`for dep in task["dependencies"]` loop over a remaining dependency list. -/
inductive Call where
  | task (name : String)
  | deps (names : List String)

/-- The straight-line tail of `run_task` once all dependencies have run:
`INSERT` of a RUNNING row with a fresh identifier, body invocation inside
`try/except Exception/finally` with the `finally` block issuing the
finalize `UPDATE` unconditionally, then `raise RuntimeError` on FAILED or
`_executed.add(name)` and return of the run identifier on SUCCESS. -/
def runBody (name : String) (func : BodyResult) (sd : RunState) : RunOutcome :=
  let rid := sd.nextId
  let rec0 : RunRecord :=
    { run_id := rid, task_name := name, status := .RUNNING,
      triggered_at := sd.clock, completed_at := none,
      artifacts := none, error := none }
  let s1 : RunState :=
    { records := sd.records ++ [rec0],
      events := sd.events ++ [.insert rid name .RUNNING sd.clock],
      executed := sd.executed, nextId := rid + 1, clock := sd.clock + 1 }
  let s2 : RunState := { s1 with events := s1.events ++ [.invoke name] }
  match func with
  | .ok result =>
    let artifacts := result.map Json.dumps
    let s3 : RunState :=
      { s2 with
        records := finalize s2.records rid s2.clock .SUCCESS artifacts none,
        events := s2.events ++ [.final rid s2.clock .SUCCESS artifacts none],
        clock := s2.clock + 1 }
    .ok (.rid rid) { s3 with executed := s3.executed ++ [name] }
  | .raises msg =>
    let errText := some (formatError msg)
    let s3 : RunState :=
      { s2 with
        records := finalize s2.records rid s2.clock .FAILED none errText,
        events := s2.events ++ [.final rid s2.clock .FAILED none errText],
        clock := s2.clock + 1 }
    .err (.taskFailed name rid) s3

/-- Replace the `_executed` set a call leaves behind.  Used to model the
severed aliasing of `_executed = _executed or set()`: when that line
rebinds to a fresh set, the frame's additions never reach the caller, so
the caller-visible set after the call is the caller's own, unchanged. -/
def setExecuted (o : RunOutcome) (ex : List String) : RunOutcome :=
  match o with
  | .ok r s => .ok r { s with executed := ex }
  | .err e s => .err e { s with executed := ex }
  | .fuelOut s => .fuelOut { s with executed := ex }

/-- The effect of `_executed = _executed or set()` on what a `run_task`
frame gives back to its caller.  A Python empty set is falsy, so an empty
incoming set is replaced by a fresh one: the frame then works on its own
set (same empty value, so the frame's computation is unchanged) and its
additions are invisible to the caller — modelled by restoring the
caller's (empty) set on exit.  A non-empty incoming set is kept, so it is
genuinely shared and the frame's additions stay visible. -/
def frameResult (s : RunState) (o : RunOutcome) : RunOutcome :=
  if s.executed.isEmpty then setExecuted o s.executed else o

/-- The body of `TaskRegistry.run_task`, fuelled.  Faithful line by line:
the `_executed = _executed or set()` rebinding (the `frameResult`
wrapper: an empty incoming set is a fresh one whose additions are
discarded on exit), the de-duplication check against `_executed`, the
`self._tasks.get` lookup with `KeyError` on a miss, sequential recursive
runs of the declared dependencies (exceptions propagate out of the
loop), then the insert/invoke/finalize tail `runBody`. -/
def exec (ts : Tasks) : Nat → Call → RunState → RunOutcome
  | 0, _, s => .fuelOut s
  | _ + 1, .deps [], s => .ok .empty s
  | fuel + 1, .deps (d :: rest), s =>
    match exec ts fuel (.task d) s with
    | .ok _ s1 => exec ts fuel (.deps rest) s1
    | o => o
  | fuel + 1, .task name, s =>
    frameResult s
      (if name ∈ s.executed then
        .ok .empty s
      else
        match lookupTask ts name with
        | none => .err (.unknownTask name) s
        | some task =>
          match exec ts fuel (.deps task.dependencies) s with
          | .ok _ sd => runBody name task.func sd
          | o => o)

/-- `TaskRegistry.run_task(name)` on a given database/state. -/
def run_task (ts : Tasks) (fuel : Nat) (name : String) (s : RunState) : RunOutcome :=
  exec ts fuel (.task name) s

/-- Fresh process state: empty `task_runs` table, empty trace, the fresh
`_executed` set a top-level call starts with. -/
def initState : RunState :=
  { records := [], events := [], executed := [], nextId := 0, clock := 0 }

/-- Number of insert events for a given run identifier. -/
def countInsertE (rid : Nat) (es : List Event) : Nat :=
  (es.filter fun e => match e with
    | .insert r _ _ _ => r == rid
    | _ => false).length

/-- Number of finalize events for a given run identifier. -/
def countFinalE (rid : Nat) (es : List Event) : Nat :=
  (es.filter fun e => match e with
    | .final r _ _ _ _ => r == rid
    | _ => false).length

/-- Number of body invocations of a given task name. -/
def countInvokeE (n : String) (es : List Event) : Nat :=
  (es.filter fun e => match e with
    | .invoke m => m == n
    | _ => false).length

/-- Number of insert events for a given task name. -/
def countInsertName (n : String) (es : List Event) : Nat :=
  (es.filter fun e => match e with
    | .insert _ m _ _ => m == n
    | _ => false).length

/-- Number of rows of the `task_runs` table belonging to a task name. -/
def countRecName (n : String) (recs : List RunRecord) : Nat :=
  (recs.filter fun r => r.task_name == n).length

/-- First table row with the given run identifier, if any. -/
def findRecord (recs : List RunRecord) (rid : Nat) : Option RunRecord :=
  recs.find? (fun r => r.run_id == rid)

/-- Run-identifier bound of an event: all identifiers it mentions are
below `n`. -/
def ridBound (e : Event) (n : Nat) : Prop :=
  match e with
  | .insert r _ _ _ => r < n
  | .final r _ _ _ _ => r < n
  | .invoke _ => True

/-- Identifier freshness invariant: every identifier already present in
the table or the trace is below the fresh-identifier counter. -/
def Inv (s : RunState) : Prop :=
  (∀ r ∈ s.records, r.run_id < s.nextId) ∧ (∀ e ∈ s.events, ridBound e s.nextId)

/-- A ranking certificate for a registry: every declared dependency edge
strictly decreases the rank, so the dependency graph is acyclic. -/
def RankedB (ts : Tasks) (rank : String → Nat) : Prop :=
  ∀ p ∈ ts, ∀ d ∈ p.2.dependencies, rank d < rank p.1

instance (ts : Tasks) (rank : String → Nat) : Decidable (RankedB ts rank) :=
  inferInstanceAs (Decidable (∀ p ∈ ts, ∀ d ∈ p.2.dependencies, rank d < rank p.1))

/-- Well-formedness of a single trace event: rows are inserted RUNNING and
finalized to a terminal status. -/
def goodEvent (e : Event) : Prop :=
  match e with
  | .insert _ _ st _ => st = .RUNNING
  | .final _ _ st _ _ => st = .SUCCESS ∨ st = .FAILED
  | .invoke _ => True

/-- Relation between the state at entry of a registry call and the state
it leaves behind, however the call returned: the table, trace and
`_executed` set only grow, counters are monotone, freshness is preserved,
every new table row is already finalized to a terminal status with a
completion time at or after its trigger time, every new trace event is
well-formed, each run identifier gains either no insert/finalize events
or exactly one of each, and new rows correspond one to one to body
invocations of the same task name. -/
structure StepOK (s s' : RunState) : Prop where
  ev : ∃ t, s'.events = s.events ++ t
  tbl : ∃ t, s'.records = s.records ++ t
  ex : ∃ t, s'.executed = s.executed ++ t
  idMono : s.nextId ≤ s'.nextId
  clockMono : s.clock ≤ s'.clock
  inv : Inv s'
  newRec : ∀ r ∈ s'.records, r ∈ s.records ∨
    ((r.status = .SUCCESS ∨ r.status = .FAILED) ∧
     ∃ c, r.completed_at = some c ∧ r.triggered_at ≤ c ∧ s.nextId ≤ r.run_id)
  newEv : ∀ e ∈ s'.events, e ∈ s.events ∨ goodEvent e
  pair : ∀ rid, (countInsertE rid s'.events = countInsertE rid s.events ∧
                 countFinalE rid s'.events = countFinalE rid s.events) ∨
        (s.nextId ≤ rid ∧ rid < s'.nextId ∧
         countInsertE rid s'.events = countInsertE rid s.events + 1 ∧
         countFinalE rid s'.events = countFinalE rid s.events + 1)
  recInv : ∀ n, countRecName n s'.records + countInvokeE n s.events
              = countRecName n s.records + countInvokeE n s'.events

/-- The RUNNING row `run_task` inserts for task `name` in state `sd`. -/
def insertedRecord (name : String) (sd : RunState) : RunRecord :=
  { run_id := sd.nextId, task_name := name, status := .RUNNING,
    triggered_at := sd.clock, completed_at := none,
    artifacts := none, error := none }

/-- The finalized row left behind by a successful body returning `result`. -/
def successRecord (name : String) (result : Option Json) (sd : RunState) : RunRecord :=
  { run_id := sd.nextId, task_name := name, status := .SUCCESS,
    triggered_at := sd.clock, completed_at := some (sd.clock + 1),
    artifacts := result.map Json.dumps, error := none }

/-- The finalized row left behind by a body that raised `msg`. -/
def failedRecord (name : String) (msg : String) (sd : RunState) : RunRecord :=
  { run_id := sd.nextId, task_name := name, status := .FAILED,
    triggered_at := sd.clock, completed_at := some (sd.clock + 1),
    artifacts := none, error := some (formatError msg) }

/-- Rank bound a call imposes on any task name it can newly complete. -/
def rankBound (rank : String → Nat) (c : Call) (n : String) : Prop :=
  match c with
  | .task m => rank n ≤ rank m
  | .deps ds => ∃ d ∈ ds, rank n ≤ rank d

/-- Registry obtained by a sequence of `register` calls applied in order,
starting from the empty registry. -/
def applyRegs (rs : List (String × TaskDef)) : Tasks :=
  rs.foldl (fun ts p => register ts p.1 p.2) []

/-- Scenario definitions used in concrete instantiations: Scenario A's
task `base` returning the payload whose serialisation is the text
version of the one-field object with key `n` and value 1. -/
def taskA : TaskDef :=
  { func := .ok (some (.obj [("n", .num 1)])), cadence := none,
    dependencies := [], description := "" }

/-- Scenario A registry: the single task `base`. -/
def scA : Tasks := register [] "base" taskA

/-- Scenario B's failing task `base` (raises with message `boom`). -/
def taskBbase : TaskDef :=
  { func := .raises "boom", cadence := none, dependencies := [], description := "" }

/-- Scenario B's task `dependent`, depending on `base`. -/
def taskBdep : TaskDef :=
  { func := .ok none, cadence := none, dependencies := ["base"], description := "" }

/-- Scenario B registry. -/
def scB : Tasks := register (register [] "base" taskBbase) "dependent" taskBdep

/-- Scenario C's task `shared` (no dependencies). -/
def taskShared : TaskDef :=
  { func := .ok none, cadence := none, dependencies := [], description := "" }

/-- Scenario C's task `a`, depending on `shared`. -/
def taskCa : TaskDef :=
  { func := .ok none, cadence := none, dependencies := ["shared"], description := "" }

/-- Scenario C's task `b`, depending on `shared`. -/
def taskCb : TaskDef :=
  { func := .ok none, cadence := none, dependencies := ["shared"], description := "" }

/-- Scenario C's task `root`, depending on `a` and `b`. -/
def taskRoot : TaskDef :=
  { func := .ok none, cadence := none, dependencies := ["a", "b"], description := "" }

/-- Scenario C registry. -/
def scC : Tasks :=
  register (register (register (register [] "shared" taskShared) "a" taskCa)
    "b" taskCb) "root" taskRoot

/-- Ranking certificate for the Scenario B registry. -/
def rankB : String → Nat := fun n => if n = "dependent" then 1 else 0

/-- State left by the Scenario C run of `root`. -/
def stC : RunState := (run_task scC 10 "root" initState).state

/-- State left by the Scenario B run of `dependent`. -/
def sdB : RunState := (run_task scB 10 "dependent" initState).state

/-- A state whose `_executed` set already contains the name `seeded`. -/
def stEx : RunState :=
  { records := [], events := [], executed := ["seeded"], nextId := 0, clock := 0 }

/-- The finalized Scenario A row. -/
def recA : RunRecord := successRecord "base" (some (.obj [("n", .num 1)])) initState

/-- A pair of registration sequences that are permutations of each other. -/
def regsW1 : List (String × TaskDef) := [("b", taskShared), ("a", taskA)]

/-- The same registrations as `regsW1`, applied in the other order. -/
def regsW2 : List (String × TaskDef) := [("a", taskA), ("b", taskShared)]

theorem StepOK.refl {s : RunState} (h : Inv s) : StepOK s s :=
  ⟨⟨[], by simp⟩, ⟨[], by simp⟩, ⟨[], by simp⟩, le_refl _, le_refl _, h,
   fun r hr => Or.inl hr, fun e he => Or.inl he,
   fun _ => Or.inl ⟨rfl, rfl⟩, fun _ => rfl⟩

theorem StepOK.trans {s m s' : RunState} (h1 : StepOK s m) (h2 : StepOK m s') :
    StepOK s s' := by
  refine ⟨?_, ?_, ?_, le_trans h1.idMono h2.idMono, le_trans h1.clockMono h2.clockMono,
          h2.inv, ?_, ?_, ?_, ?_⟩
  · obtain ⟨t1, ht1⟩ := h1.ev; obtain ⟨t2, ht2⟩ := h2.ev
    exact ⟨t1 ++ t2, by simp [ht2, ht1]⟩
  · obtain ⟨t1, ht1⟩ := h1.tbl; obtain ⟨t2, ht2⟩ := h2.tbl
    exact ⟨t1 ++ t2, by simp [ht2, ht1]⟩
  · obtain ⟨t1, ht1⟩ := h1.ex; obtain ⟨t2, ht2⟩ := h2.ex
    exact ⟨t1 ++ t2, by simp [ht2, ht1]⟩
  · intro r hr
    rcases h2.newRec r hr with hm | hgood
    · rcases h1.newRec r hm with hs | hgood
      · exact Or.inl hs
      · exact Or.inr ⟨hgood.1, hgood.2⟩
    · refine Or.inr ⟨hgood.1, ?_⟩
      obtain ⟨c, hc1, hc2, hc3⟩ := hgood.2
      exact ⟨c, hc1, hc2, le_trans h1.idMono hc3⟩
  · intro e he
    rcases h2.newEv e he with hm | hgood
    · exact h1.newEv e hm
    · exact Or.inr hgood
  · intro rid
    rcases h2.pair rid with ⟨e1, e2⟩ | ⟨hle, hlt, e1, e2⟩
    · rcases h1.pair rid with ⟨f1, f2⟩ | ⟨gle, glt, f1, f2⟩
      · exact Or.inl ⟨by omega, by omega⟩
      · exact Or.inr ⟨gle, lt_of_lt_of_le glt h2.idMono, by omega, by omega⟩
    · rcases h1.pair rid with ⟨f1, f2⟩ | ⟨gle, glt, f1, f2⟩
      · exact Or.inr ⟨le_trans h1.idMono hle, hlt, by omega, by omega⟩
      · omega
  · intro n
    have e1 := h1.recInv n
    have e2 := h2.recInv n
    omega

theorem finalizeRecord_eq_of_ne {rid c : Nat} {st : Status}
    {a e : Option String} {r : RunRecord} (h : r.run_id ≠ rid) :
    finalizeRecord rid c st a e r = r := by
  simp [finalizeRecord, h]

theorem finalize_eq_of_fresh {recs : List RunRecord} {rid c : Nat} {st : Status}
    {a e : Option String} (h : ∀ r ∈ recs, r.run_id ≠ rid) :
    finalize recs rid c st a e = recs := by
  unfold finalize
  calc List.map (finalizeRecord rid c st a e) recs
      = List.map id recs := List.map_congr_left fun r hr => finalizeRecord_eq_of_ne (h r hr)
    _ = recs := List.map_id recs

theorem runBody_ok_eq {name : String} {result : Option Json} {sd : RunState}
    (hInv : ∀ r ∈ sd.records, r.run_id < sd.nextId) :
    runBody name (.ok result) sd = .ok (.rid sd.nextId)
      { records := sd.records ++ [successRecord name result sd],
        events := sd.events ++
          [.insert sd.nextId name .RUNNING sd.clock, .invoke name,
           .final sd.nextId (sd.clock + 1) .SUCCESS (result.map Json.dumps) none],
        executed := sd.executed ++ [name],
        nextId := sd.nextId + 1,
        clock := sd.clock + 2 } := by
  have hfresh : ∀ r ∈ sd.records, r.run_id ≠ sd.nextId := by
    intro r hr
    exact Nat.ne_of_lt (hInv r hr)
  have h1 : List.map (finalizeRecord sd.nextId (sd.clock + 1) Status.SUCCESS
      (Option.map Json.dumps result) none) sd.records = sd.records :=
    finalize_eq_of_fresh hfresh
  simp only [runBody]
  simp [finalize, List.map_append, h1, finalizeRecord, successRecord, List.append_assoc]

theorem runBody_raises_eq {name msg : String} {sd : RunState}
    (hInv : ∀ r ∈ sd.records, r.run_id < sd.nextId) :
    runBody name (.raises msg) sd = .err (.taskFailed name sd.nextId)
      { records := sd.records ++ [failedRecord name msg sd],
        events := sd.events ++
          [.insert sd.nextId name .RUNNING sd.clock, .invoke name,
           .final sd.nextId (sd.clock + 1) .FAILED none (some (formatError msg))],
        executed := sd.executed,
        nextId := sd.nextId + 1,
        clock := sd.clock + 2 } := by
  have hfresh : ∀ r ∈ sd.records, r.run_id ≠ sd.nextId := by
    intro r hr
    exact Nat.ne_of_lt (hInv r hr)
  have h1 : List.map (finalizeRecord sd.nextId (sd.clock + 1) Status.FAILED
      none (some (formatError msg))) sd.records = sd.records :=
    finalize_eq_of_fresh hfresh
  simp only [runBody]
  simp [finalize, List.map_append, h1, finalizeRecord, failedRecord, List.append_assoc]

@[simp] theorem countInsertE_append {rid : Nat} {es fs : List Event} :
    countInsertE rid (es ++ fs) = countInsertE rid es + countInsertE rid fs := by
  simp [countInsertE, List.filter_append]

@[simp] theorem countFinalE_append {rid : Nat} {es fs : List Event} :
    countFinalE rid (es ++ fs) = countFinalE rid es + countFinalE rid fs := by
  simp [countFinalE, List.filter_append]

@[simp] theorem countInvokeE_append {n : String} {es fs : List Event} :
    countInvokeE n (es ++ fs) = countInvokeE n es + countInvokeE n fs := by
  simp [countInvokeE, List.filter_append]

@[simp] theorem countRecName_append {n : String} {rs qs : List RunRecord} :
    countRecName n (rs ++ qs) = countRecName n rs + countRecName n qs := by
  simp [countRecName, List.filter_append]

theorem ridBound_mono {e : Event} {n m : Nat} (h : ridBound e n) (hnm : n ≤ m) :
    ridBound e m := by
  cases e <;> simp [ridBound] at * <;> omega

theorem Inv_mono_events {s : RunState} (h : Inv s) :
    ∀ e ∈ s.events, ridBound e (s.nextId + 1) :=
  fun e he => ridBound_mono (h.2 e he) (Nat.le_succ _)

theorem runBody_StepOK {name : String} {f : BodyResult} {sd : RunState}
    (hInv : Inv sd) : StepOK sd (runBody name f sd).state := by
  cases f with
  | ok result =>
    rw [runBody_ok_eq hInv.1]
    refine ⟨⟨_, rfl⟩, ⟨_, rfl⟩, ⟨_, rfl⟩, Nat.le_succ _, by simp [RunOutcome.state], ?_, ?_, ?_, ?_, ?_⟩
    · constructor
      · intro r hr
        simp [RunOutcome.state] at hr ⊢
        rcases hr with hr | hr
        · exact lt_trans (hInv.1 r hr) (Nat.lt_succ_self _)
        · simp [hr, successRecord]
      · intro e he
        simp [RunOutcome.state] at he
        rcases he with he | he | he | he
        · exact ridBound_mono (hInv.2 e he) (Nat.le_succ _)
        · simp [he, ridBound, RunOutcome.state] <;> omega
        · simp [he, ridBound, RunOutcome.state] <;> omega
        · simp [he, ridBound, RunOutcome.state] <;> omega
    · intro r hr
      simp [RunOutcome.state] at hr
      rcases hr with hr | hr
      · exact Or.inl hr
      · refine Or.inr ⟨Or.inl (by simp [hr, successRecord]), ?_⟩
        exact ⟨sd.clock + 1, by simp [hr, successRecord]⟩
    · intro e he
      simp [RunOutcome.state] at he
      rcases he with he | he | he | he
      · exact Or.inl he
      · exact Or.inr (by simp [he, goodEvent])
      · exact Or.inr (by simp [he, goodEvent])
      · exact Or.inr (by simp [he, goodEvent])
    · intro rid
      by_cases h : rid = sd.nextId
      · refine Or.inr ⟨le_of_eq h.symm, by simp [RunOutcome.state]; omega, ?_, ?_⟩
        · simp [RunOutcome.state, countInsertE_append, h, countInsertE]
        · simp [RunOutcome.state, countFinalE_append, h, countFinalE]
      · have h' : (sd.nextId == rid) = false := by
          simp
          exact fun hc => h hc.symm
        refine Or.inl ⟨?_, ?_⟩
        · simp [RunOutcome.state, countInsertE_append, countInsertE, h']
        · simp [RunOutcome.state, countFinalE_append, countFinalE, h']
    · intro n
      by_cases h : n = name
      · simp [RunOutcome.state, countRecName_append, countInvokeE_append,
              countRecName, countInvokeE, successRecord, h]
        omega
      · have h' : (name == n) = false := by
          simp
          exact fun hc => h hc.symm
        simp [RunOutcome.state, countRecName_append, countInvokeE_append,
              countRecName, countInvokeE, successRecord, h']
  | raises msg =>
    rw [runBody_raises_eq hInv.1]
    refine ⟨⟨_, rfl⟩, ⟨_, rfl⟩, ⟨[], by simp [RunOutcome.state]⟩, Nat.le_succ _,
            by simp [RunOutcome.state], ?_, ?_, ?_, ?_, ?_⟩
    · constructor
      · intro r hr
        simp [RunOutcome.state] at hr ⊢
        rcases hr with hr | hr
        · exact lt_trans (hInv.1 r hr) (Nat.lt_succ_self _)
        · simp [hr, failedRecord]
      · intro e he
        simp [RunOutcome.state] at he
        rcases he with he | he | he | he
        · exact ridBound_mono (hInv.2 e he) (Nat.le_succ _)
        · simp [he, ridBound, RunOutcome.state] <;> omega
        · simp [he, ridBound, RunOutcome.state] <;> omega
        · simp [he, ridBound, RunOutcome.state] <;> omega
    · intro r hr
      simp [RunOutcome.state] at hr
      rcases hr with hr | hr
      · exact Or.inl hr
      · refine Or.inr ⟨Or.inr (by simp [hr, failedRecord]), ?_⟩
        exact ⟨sd.clock + 1, by simp [hr, failedRecord]⟩
    · intro e he
      simp [RunOutcome.state] at he
      rcases he with he | he | he | he
      · exact Or.inl he
      · exact Or.inr (by simp [he, goodEvent])
      · exact Or.inr (by simp [he, goodEvent])
      · exact Or.inr (by simp [he, goodEvent])
    · intro rid
      by_cases h : rid = sd.nextId
      · refine Or.inr ⟨le_of_eq h.symm, by simp [RunOutcome.state]; omega, ?_, ?_⟩
        · simp [RunOutcome.state, countInsertE_append, h, countInsertE]
        · simp [RunOutcome.state, countFinalE_append, h, countFinalE]
      · have h' : (sd.nextId == rid) = false := by
          simp
          exact fun hc => h hc.symm
        refine Or.inl ⟨?_, ?_⟩
        · simp [RunOutcome.state, countInsertE_append, countInsertE, h']
        · simp [RunOutcome.state, countFinalE_append, countFinalE, h']
    · intro n
      by_cases h : n = name
      · simp [RunOutcome.state, countRecName_append, countInvokeE_append,
              countRecName, countInvokeE, failedRecord, h]
        omega
      · have h' : (name == n) = false := by
          simp
          exact fun hc => h hc.symm
        simp [RunOutcome.state, countRecName_append, countInvokeE_append,
              countRecName, countInvokeE, failedRecord, h']

theorem exec_zero {ts : Tasks} {c : Call} {s : RunState} :
    exec ts 0 c s = .fuelOut s := rfl

theorem exec_deps_nil {ts : Tasks} {fuel : Nat} {s : RunState} :
    exec ts (fuel + 1) (.deps []) s = .ok .empty s := rfl

theorem exec_deps_cons {ts : Tasks} {fuel : Nat} {d : String} {rest : List String}
    {s : RunState} :
    exec ts (fuel + 1) (.deps (d :: rest)) s =
      match exec ts fuel (.task d) s with
      | .ok _ s1 => exec ts fuel (.deps rest) s1
      | o => o := rfl

theorem exec_task {ts : Tasks} {fuel : Nat} {name : String} {s : RunState} :
    exec ts (fuel + 1) (.task name) s =
      frameResult s
        (if name ∈ s.executed then .ok .empty s
        else
          match lookupTask ts name with
          | none => .err (.unknownTask name) s
          | some task =>
            match exec ts fuel (.deps task.dependencies) s with
            | .ok _ sd => runBody name task.func sd
            | o => o) := rfl

theorem setExecuted_state {o : RunOutcome} {ex : List String} :
    (setExecuted o ex).state = { o.state with executed := ex } := by
  cases o <;> rfl

theorem setExecuted_eq_self {o : RunOutcome} {ex : List String}
    (h : o.state.executed = ex) : setExecuted o ex = o := by
  subst h
  cases o <;> rfl

theorem frameResult_eq_self {s : RunState} {o : RunOutcome}
    (h : o.state.executed = s.executed) : frameResult s o = o := by
  unfold frameResult
  split
  · exact setExecuted_eq_self h
  · rfl

theorem frameResult_of_shared {s : RunState} {o : RunOutcome}
    (h : s.executed.isEmpty = false) : frameResult s o = o := by
  simp [frameResult, h]

theorem frameResult_state_records {s : RunState} {o : RunOutcome} :
    (frameResult s o).state.records = o.state.records := by
  unfold frameResult
  split
  · rw [setExecuted_state]
  · rfl

theorem frameResult_state_events {s : RunState} {o : RunOutcome} :
    (frameResult s o).state.events = o.state.events := by
  unfold frameResult
  split
  · rw [setExecuted_state]
  · rfl

theorem frameResult_ok_inv {s : RunState} {o : RunOutcome} {ret : Ret}
    {s' : RunState} (h : frameResult s o = .ok ret s') :
    ∃ s0, o = .ok ret s0 ∧ s0.records = s'.records ∧ s0.events = s'.events := by
  unfold frameResult at h
  split at h
  · cases o with
    | ok r t =>
      simp [setExecuted] at h
      obtain ⟨h1, h2⟩ := h
      exact ⟨t, by rw [h1], by rw [← h2], by rw [← h2]⟩
    | err e t => simp [setExecuted] at h
    | fuelOut t => simp [setExecuted] at h
  · exact ⟨s', h, rfl, rfl⟩

theorem exec_deps_cons_ok {ts : Tasks} {fuel : Nat} {d : String} {rest : List String}
    {s s1 : RunState} {r : Ret} (hE : exec ts fuel (.task d) s = .ok r s1) :
    exec ts (fuel + 1) (.deps (d :: rest)) s = exec ts fuel (.deps rest) s1 := by
  rw [exec_deps_cons, hE]

theorem exec_deps_cons_err {ts : Tasks} {fuel : Nat} {d : String} {rest : List String}
    {s s1 : RunState} {e : RunError} (hE : exec ts fuel (.task d) s = .err e s1) :
    exec ts (fuel + 1) (.deps (d :: rest)) s = .err e s1 := by
  rw [exec_deps_cons, hE]

theorem exec_deps_cons_fuel {ts : Tasks} {fuel : Nat} {d : String} {rest : List String}
    {s s1 : RunState} (hE : exec ts fuel (.task d) s = .fuelOut s1) :
    exec ts (fuel + 1) (.deps (d :: rest)) s = .fuelOut s1 := by
  rw [exec_deps_cons, hE]

theorem exec_task_mem {ts : Tasks} {fuel : Nat} {name : String} {s : RunState}
    (hmem : name ∈ s.executed) :
    exec ts (fuel + 1) (.task name) s = .ok .empty s := by
  rw [exec_task, if_pos hmem]
  exact frameResult_eq_self rfl

theorem exec_task_unknown {ts : Tasks} {fuel : Nat} {name : String} {s : RunState}
    (hmem : name ∉ s.executed) (hL : lookupTask ts name = none) :
    exec ts (fuel + 1) (.task name) s = .err (.unknownTask name) s := by
  rw [exec_task, if_neg hmem]
  simp only [hL]
  exact frameResult_eq_self rfl

theorem exec_task_run {ts : Tasks} {fuel : Nat} {name : String} {task : TaskDef}
    {s sd : RunState} {r : Ret} (hmem : name ∉ s.executed)
    (hL : lookupTask ts name = some task)
    (hD : exec ts fuel (.deps task.dependencies) s = .ok r sd) :
    exec ts (fuel + 1) (.task name) s = frameResult s (runBody name task.func sd) := by
  rw [exec_task, if_neg hmem]
  simp only [hL, hD]

theorem exec_task_depErr {ts : Tasks} {fuel : Nat} {name : String} {task : TaskDef}
    {s sd : RunState} {e : RunError} (hmem : name ∉ s.executed)
    (hL : lookupTask ts name = some task)
    (hD : exec ts fuel (.deps task.dependencies) s = .err e sd) :
    exec ts (fuel + 1) (.task name) s = frameResult s (.err e sd) := by
  rw [exec_task, if_neg hmem]
  simp only [hL, hD]

theorem exec_task_depFuel {ts : Tasks} {fuel : Nat} {name : String} {task : TaskDef}
    {s sd : RunState} (hmem : name ∉ s.executed)
    (hL : lookupTask ts name = some task)
    (hD : exec ts fuel (.deps task.dependencies) s = .fuelOut sd) :
    exec ts (fuel + 1) (.task name) s = frameResult s (.fuelOut sd) := by
  rw [exec_task, if_neg hmem]
  simp only [hL, hD]

theorem exec_executed_of_empty (ts : Tasks) :
    ∀ fuel c s, s.executed = [] → (exec ts fuel c s).state.executed = [] := by
  intro fuel
  induction fuel with
  | zero =>
    intro c s h
    rw [exec_zero]
    exact h
  | succ fuel ih =>
    intro c s h
    match c with
    | .deps [] =>
      rw [exec_deps_nil]
      exact h
    | .deps (d :: rest) =>
      cases hE : exec ts fuel (.task d) s with
      | ok r s1 =>
        rw [exec_deps_cons_ok hE]
        have h1 := ih (.task d) s h
        rw [hE] at h1
        exact ih (.deps rest) s1 h1
      | err e s1 =>
        rw [exec_deps_cons_err hE]
        have h1 := ih (.task d) s h
        rw [hE] at h1
        exact h1
      | fuelOut s1 =>
        rw [exec_deps_cons_fuel hE]
        have h1 := ih (.task d) s h
        rw [hE] at h1
        exact h1
    | .task name =>
      rw [exec_task]
      have hemp : s.executed.isEmpty = true := by
        rw [h]
        rfl
      unfold frameResult
      rw [if_pos hemp, setExecuted_state]
      exact h

theorem StepOK_frameResult {s : RunState} {o : RunOutcome}
    (h : StepOK s o.state) : StepOK s (frameResult s o).state := by
  unfold frameResult
  split
  · rw [setExecuted_state]
    exact ⟨h.ev, h.tbl, ⟨[], by simp⟩, h.idMono, h.clockMono, h.inv,
           h.newRec, h.newEv, h.pair, h.recInv⟩
  · exact h

theorem exec_StepOK (ts : Tasks) :
    ∀ fuel c s, Inv s → StepOK s (exec ts fuel c s).state := by
  intro fuel
  induction fuel with
  | zero =>
    intro c s hInv
    rw [exec_zero]
    exact StepOK.refl hInv
  | succ fuel ih =>
    intro c s hInv
    match c with
    | .deps [] =>
      rw [exec_deps_nil]
      exact StepOK.refl hInv
    | .deps (d :: rest) =>
      cases hE : exec ts fuel (.task d) s with
      | ok r s1 =>
        rw [exec_deps_cons_ok hE]
        have h1 := ih (.task d) s hInv
        rw [hE] at h1
        exact StepOK.trans h1 (ih (.deps rest) s1 h1.inv)
      | err e s1 =>
        rw [exec_deps_cons_err hE]
        have h1 := ih (.task d) s hInv
        rw [hE] at h1
        exact h1
      | fuelOut s1 =>
        rw [exec_deps_cons_fuel hE]
        have h1 := ih (.task d) s hInv
        rw [hE] at h1
        exact h1
    | .task name =>
      by_cases hmem : name ∈ s.executed
      · rw [exec_task_mem hmem]
        exact StepOK.refl hInv
      · cases hL : lookupTask ts name with
        | none =>
          rw [exec_task_unknown hmem hL]
          exact StepOK.refl hInv
        | some task =>
          cases hD : exec ts fuel (.deps task.dependencies) s with
          | ok r sd =>
            rw [exec_task_run hmem hL hD]
            have h1 := ih (.deps task.dependencies) s hInv
            rw [hD] at h1
            exact StepOK_frameResult (StepOK.trans h1 (runBody_StepOK h1.inv))
          | err e sd =>
            rw [exec_task_depErr hmem hL hD]
            have h1 := ih (.deps task.dependencies) s hInv
            rw [hD] at h1
            exact StepOK_frameResult h1
          | fuelOut sd =>
            rw [exec_task_depFuel hmem hL hD]
            have h1 := ih (.deps task.dependencies) s hInv
            rw [hD] at h1
            exact StepOK_frameResult h1

theorem lookupTask_mem {ts : Tasks} {name : String} {t : TaskDef}
    (h : lookupTask ts name = some t) : (name, t) ∈ ts := by
  unfold lookupTask at h
  cases hF : ts.find? (fun p => p.1 == name) with
  | none => rw [hF] at h; simp at h
  | some p =>
    rw [hF] at h
    simp at h
    have hmem := List.mem_of_find?_eq_some hF
    have hp := List.find?_some hF
    simp at hp
    have : p = (name, t) := by
      cases p
      simp_all
    rw [this] at hmem
    exact hmem

theorem runBody_events {name : String} {f : BodyResult} {sd : RunState} :
    ∃ st a e, (runBody name f sd).state.events = sd.events ++
      [.insert sd.nextId name .RUNNING sd.clock, .invoke name,
       .final sd.nextId (sd.clock + 1) st a e] := by
  cases f with
  | ok result =>
    exact ⟨.SUCCESS, result.map Json.dumps, none, by simp [runBody, List.append_assoc]⟩
  | raises msg =>
    exact ⟨.FAILED, none, some (formatError msg), by simp [runBody, List.append_assoc]⟩

theorem exec_invoke_stable {ts : Tasks} {rank : String → Nat}
    (hR : RankedB ts rank) :
    ∀ fuel c s n, ¬ rankBound rank c n →
      countInvokeE n (exec ts fuel c s).state.events = countInvokeE n s.events := by
  intro fuel
  induction fuel with
  | zero =>
    intro c s n _
    rw [exec_zero]
    rfl
  | succ fuel ih =>
    intro c s n hb
    match c with
    | .deps [] =>
      rw [exec_deps_nil]
      rfl
    | .deps (d :: rest) =>
      have hb1 : ¬ rankBound rank (.task d) n := by
        intro hle
        exact hb ⟨d, List.mem_cons_self d rest, hle⟩
      have hb2 : ¬ rankBound rank (.deps rest) n := by
        rintro ⟨d', hd', hle⟩
        exact hb ⟨d', List.mem_cons_of_mem d hd', hle⟩
      cases hE : exec ts fuel (.task d) s with
      | ok r s1 =>
        have h1 : countInvokeE n s1.events = countInvokeE n s.events := by
          have h0 := ih (.task d) s n hb1
          rw [hE] at h0
          exact h0
        rw [exec_deps_cons_ok hE, ih (.deps rest) s1 n hb2, h1]
      | err e s1 =>
        rw [exec_deps_cons_err hE]
        have h1 := ih (.task d) s n hb1
        rw [hE] at h1
        exact h1
      | fuelOut s1 =>
        rw [exec_deps_cons_fuel hE]
        have h1 := ih (.task d) s n hb1
        rw [hE] at h1
        exact h1
    | .task name =>
      have hname : n ≠ name := by
        intro h
        exact hb (h ▸ le_refl (rank n))
      by_cases hmem : name ∈ s.executed
      · rw [exec_task_mem hmem]
        rfl
      · cases hL : lookupTask ts name with
        | none =>
          rw [exec_task_unknown hmem hL]
          rfl
        | some task =>
          have hrank : ∀ d ∈ task.dependencies, rank d < rank name :=
            hR (name, task) (lookupTask_mem hL)
          have hbD : ¬ rankBound rank (.deps task.dependencies) n := by
            rintro ⟨d', hd', hle⟩
            exact hb (le_trans hle (le_of_lt (hrank d' hd')))
          cases hD : exec ts fuel (.deps task.dependencies) s with
          | ok r sd =>
            rw [exec_task_run hmem hL hD, frameResult_state_events]
            have h1 : countInvokeE n sd.events = countInvokeE n s.events := by
              have h0 := ih (.deps task.dependencies) s n hbD
              rw [hD] at h0
              exact h0
            obtain ⟨st, a, e, hev⟩ :=
              @runBody_events name task.func sd
            rw [hev, countInvokeE_append]
            have hzero : countInvokeE n
                [Event.insert sd.nextId name .RUNNING sd.clock, Event.invoke name,
                 Event.final sd.nextId (sd.clock + 1) st a e] = 0 := by
              have hne : (name == n) = false := by
                simp
                exact fun hc => hname hc.symm
              simp [countInvokeE, hne]
            rw [hzero, h1]
            omega
          | err e sd =>
            rw [exec_task_depErr hmem hL hD, frameResult_state_events]
            have h1 := ih (.deps task.dependencies) s n hbD
            rw [hD] at h1
            exact h1
          | fuelOut sd =>
            rw [exec_task_depFuel hmem hL hD, frameResult_state_events]
            have h1 := ih (.deps task.dependencies) s n hbD
            rw [hD] at h1
            exact h1

theorem list_eq_nil_of_isEmpty {l : List String} (h : l.isEmpty = true) :
    l = [] := by
  cases l with
  | nil => rfl
  | cons a t => simp [List.isEmpty] at h

theorem finalizeRecord_idem {rid c : Nat} {st : Status} {a e : Option String}
    (r : RunRecord) :
    finalizeRecord rid c st a e (finalizeRecord rid c st a e r)
      = finalizeRecord rid c st a e r := by
  by_cases h : r.run_id = rid
  · simp [finalizeRecord, h]
  · simp [finalizeRecord, h]

/-- C9: finalizing a run twice with the same terminal status, completion
time, artifacts and error leaves the `task_runs` table exactly as after
the first finalize: the run-store finalize `UPDATE` is idempotent. -/
theorem finalize_idempotent (recs : List RunRecord) (rid c : Nat) (st : Status)
    (a e : Option String) :
    finalize (finalize recs rid c st a e) rid c st a e
      = finalize recs rid c st a e := by
  unfold finalize
  rw [List.map_map]
  exact List.map_congr_left fun r _ => finalizeRecord_idem r

/-- C10: a `run_task` call whose task name is already in the supplied
`_executed` set returns the empty string (`Ret.empty`), writes nothing to
the run store, invokes no body, and leaves the execution set and the rest
of the state untouched. -/
theorem run_task_already_executed {ts : Tasks} {fuel : Nat} {name : String}
    {s : RunState} (hmem : name ∈ s.executed) :
    run_task ts (fuel + 1) name s = .ok .empty s :=
  exec_task_mem hmem

/-- C5: running a name with no registered task fails immediately with the
`Unknown task` error for that name and leaves the state — in particular
the `task_runs` table — unchanged, so no RunRecord is created for the
unknown name. -/
theorem run_task_unknown_task {ts : Tasks} {fuel : Nat} {name : String}
    {s : RunState} (hmem : name ∉ s.executed)
    (hL : lookupTask ts name = none) :
    run_task ts (fuel + 1) name s = .err (.unknownTask name) s :=
  exec_task_unknown hmem hL

/-- C3: when a task's own body raises, `run_task` finalizes that task's
RunRecord to FAILED with the message plus the diagnostic trace in the
error field, and then raises the `RuntimeError` carrying that run's
identifier to its caller; the body's exception itself is consumed by the
registry and never escapes. -/
theorem run_task_body_failure {ts : Tasks} {fuel : Nat} {name msg : String}
    {task : TaskDef} {s sd : RunState} {r : Ret}
    (hInv : Inv s) (hmem : name ∉ s.executed)
    (hL : lookupTask ts name = some task) (hfunc : task.func = .raises msg)
    (hD : exec ts fuel (.deps task.dependencies) s = .ok r sd) :
    run_task ts (fuel + 1) name s =
      .err (.taskFailed name sd.nextId)
        { records := sd.records ++ [failedRecord name msg sd],
          events := sd.events ++
            [.insert sd.nextId name .RUNNING sd.clock, .invoke name,
             .final sd.nextId (sd.clock + 1) .FAILED none (some (formatError msg))],
          executed := sd.executed,
          nextId := sd.nextId + 1,
          clock := sd.clock + 2 } ∧
    (failedRecord name msg sd).status = .FAILED ∧
    (failedRecord name msg sd).error = some (formatError msg) ∧
    formatError msg = msg ++ "\n" ++ "Traceback (most recent call last)" := by
  have hInvsd : Inv sd := by
    have h := (exec_StepOK ts fuel (.deps task.dependencies) s hInv).inv
    rw [hD] at h
    exact h
  refine ⟨?_, rfl, rfl, rfl⟩
  show exec ts (fuel + 1) (.task name) s = _
  rw [exec_task_run hmem hL hD, hfunc, runBody_raises_eq hInvsd.1]
  cases hemp : s.executed.isEmpty with
  | true =>
    have h0 : s.executed = [] := list_eq_nil_of_isEmpty hemp
    have hsd : sd.executed = s.executed := by
      have h1 := exec_executed_of_empty ts fuel (.deps task.dependencies) s h0
      rw [hD] at h1
      have h2 : sd.executed = [] := h1
      rw [h2, h0]
    exact frameResult_eq_self hsd
  | false => exact frameResult_of_shared hemp

/-- C4: when a (transitive) dependency of `name` fails, the failure —
with the failing run's identifier and message — propagates to the caller
of `run_task name` completely unchanged, the state stays exactly as the
dependency walk left it, and for an acyclic (ranked) registry the task
`name` itself gains no body invocation and no RunRecord anywhere in the
call. -/
theorem run_task_dep_failure {ts : Tasks} {rank : String → Nat} {fuel : Nat}
    {name f : String} {rid : Nat} {task : TaskDef} {s sd : RunState}
    (hR : RankedB ts rank) (hInv : Inv s)
    (hmem : name ∉ s.executed) (hL : lookupTask ts name = some task)
    (hD : exec ts fuel (.deps task.dependencies) s = .err (.taskFailed f rid) sd) :
    run_task ts (fuel + 1) name s = .err (.taskFailed f rid) sd ∧
    countInvokeE name sd.events = countInvokeE name s.events ∧
    countRecName name sd.records = countRecName name s.records := by
  have hrank : ∀ d ∈ task.dependencies, rank d < rank name :=
    hR (name, task) (lookupTask_mem hL)
  have hbD : ¬ rankBound rank (.deps task.dependencies) name := by
    rintro ⟨d', hd', hle⟩
    have := hrank d' hd'
    omega
  have hinv : countInvokeE name sd.events = countInvokeE name s.events := by
    have h0 := exec_invoke_stable hR fuel (.deps task.dependencies) s name hbD
    rw [hD] at h0
    exact h0
  refine ⟨?_, hinv, ?_⟩
  · show exec ts (fuel + 1) (.task name) s = _
    rw [exec_task_depErr hmem hL hD]
    cases hemp : s.executed.isEmpty with
    | true =>
      have h0 : s.executed = [] := list_eq_nil_of_isEmpty hemp
      have hsd : sd.executed = s.executed := by
        have h1 := exec_executed_of_empty ts fuel (.deps task.dependencies) s h0
        rw [hD] at h1
        have h2 : sd.executed = [] := h1
        rw [h2, h0]
      exact frameResult_eq_self hsd
    | false => exact frameResult_of_shared hemp
  · have hstep := exec_StepOK ts fuel (.deps task.dependencies) s hInv
    rw [hD] at hstep
    have hrec := hstep.recInv name
    simp at hrec
    omega

/-- C7: when the body returns normally, `run_task` finalizes the record
to SUCCESS with the serialized return value in artifacts (null artifacts
exactly when the body returned null), appends the task's name to the
execution set, and returns the freshly generated run identifier. -/
theorem run_task_success {ts : Tasks} {fuel : Nat} {name : String}
    {task : TaskDef} {result : Option Json} {s sd : RunState} {r : Ret}
    (hInv : Inv s) (hmem : name ∉ s.executed)
    (hL : lookupTask ts name = some task) (hfunc : task.func = .ok result)
    (hD : exec ts fuel (.deps task.dependencies) s = .ok r sd) :
    run_task ts (fuel + 1) name s =
      .ok (.rid sd.nextId)
        { records := sd.records ++ [successRecord name result sd],
          events := sd.events ++
            [.insert sd.nextId name .RUNNING sd.clock, .invoke name,
             .final sd.nextId (sd.clock + 1) .SUCCESS (result.map Json.dumps) none],
          executed := if s.executed.isEmpty then s.executed
                      else sd.executed ++ [name],
          nextId := sd.nextId + 1,
          clock := sd.clock + 2 } ∧
    (runBody name task.func sd).state.executed = sd.executed ++ [name] ∧
    (successRecord name result sd).status = .SUCCESS ∧
    (successRecord name result sd).artifacts = result.map Json.dumps ∧
    (result = none → (successRecord name result sd).artifacts = none) := by
  have hInvsd : Inv sd := by
    have h := (exec_StepOK ts fuel (.deps task.dependencies) s hInv).inv
    rw [hD] at h
    exact h
  refine ⟨?_, ?_, rfl, rfl, fun h => by simp [successRecord, h]⟩
  · show exec ts (fuel + 1) (.task name) s = _
    rw [exec_task_run hmem hL hD, hfunc, runBody_ok_eq hInvsd.1]
    cases hemp : s.executed.isEmpty with
    | true =>
      unfold frameResult
      rw [if_pos hemp]
      simp [setExecuted, hemp]
    | false =>
      rw [frameResult_of_shared hemp]
      simp [hemp]
  · rw [hfunc, runBody_ok_eq hInvsd.1]
    rfl

/-- C2: a successful `run_task` first runs the whole declared dependency
list — sequentially, in declared order, each dependency completing before
the next starts — and only then inserts the task's own RunRecord, invokes
its body and finalizes it: the task's insert, invoke and finalize are the
last three events, strictly after every dependency-produced event. -/
theorem run_task_ordering :
    (∀ (ts : Tasks) (fuel : Nat) (name : String) (task : TaskDef)
        (s s' : RunState) (ret : Ret),
      Inv s → name ∉ s.executed → lookupTask ts name = some task →
      run_task ts (fuel + 1) name s = .ok ret s' →
      ∃ r sd result,
        exec ts fuel (.deps task.dependencies) s = .ok r sd ∧
        task.func = .ok result ∧
        ret = .rid sd.nextId ∧
        s'.records = sd.records ++ [successRecord name result sd] ∧
        s'.events = sd.events ++
          [.insert sd.nextId name .RUNNING sd.clock, .invoke name,
           .final sd.nextId (sd.clock + 1) .SUCCESS (result.map Json.dumps) none]) ∧
    (∀ (ts : Tasks) (fuel : Nat) (d : String) (rest : List String)
        (s s' : RunState) (ret : Ret),
      exec ts (fuel + 1) (.deps (d :: rest)) s = .ok ret s' →
      ∃ r0 m, exec ts fuel (.task d) s = .ok r0 m ∧
        exec ts fuel (.deps rest) m = .ok ret s') := by
  constructor
  · intro ts fuel name task s s' ret hInv hmem hL hRun
    have hRun' : exec ts (fuel + 1) (.task name) s = .ok ret s' := hRun
    cases hD : exec ts fuel (.deps task.dependencies) s with
    | ok r sd =>
      have hInvsd : Inv sd := by
        have h := (exec_StepOK ts fuel (.deps task.dependencies) s hInv).inv
        rw [hD] at h
        exact h
      have hBody : frameResult s (runBody name task.func sd) = .ok ret s' := by
        rw [← exec_task_run hmem hL hD]
        exact hRun'
      cases hfunc : task.func with
      | ok result =>
        rw [hfunc, runBody_ok_eq hInvsd.1] at hBody
        obtain ⟨s0, hO, hrec, hev⟩ := frameResult_ok_inv hBody
        injection hO with h1 h2
        refine ⟨r, sd, result, rfl, rfl, h1.symm, ?_, ?_⟩
        · rw [← hrec, ← h2]
        · rw [← hev, ← h2]
      | raises msg =>
        rw [hfunc, runBody_raises_eq hInvsd.1] at hBody
        obtain ⟨s0, hO, _, _⟩ := frameResult_ok_inv hBody
        exact RunOutcome.noConfusion hO
    | err e sd =>
      have h := (exec_task_depErr hmem hL hD).symm.trans hRun'
      obtain ⟨s0, hO, _, _⟩ := frameResult_ok_inv h
      exact RunOutcome.noConfusion hO
    | fuelOut sd =>
      have h := (exec_task_depFuel hmem hL hD).symm.trans hRun'
      obtain ⟨s0, hO, _, _⟩ := frameResult_ok_inv h
      exact RunOutcome.noConfusion hO
  · intro ts fuel d rest s s' ret hRun
    cases hE : exec ts fuel (.task d) s with
    | ok r0 m =>
      refine ⟨r0, m, rfl, ?_⟩
      rw [← exec_deps_cons_ok hE]
      exact hRun
    | err e m =>
      have h := (exec_deps_cons_err hE).symm.trans hRun
      exact RunOutcome.noConfusion h
    | fuelOut m =>
      have h := (exec_deps_cons_fuel hE).symm.trans hRun
      exact RunOutcome.noConfusion h

/-- C6: in any top-level run from a fresh state, every row ever written
to `task_runs` ends finalized in a terminal status with a completion time
at or after its trigger time (the finalize runs even when the body
raises), every insert event carries status RUNNING, every finalize event
carries a terminal status, and each run identifier is inserted at most
once and finalized exactly as many times as it is inserted. -/
theorem run_record_lifecycle (ts : Tasks) (fuel : Nat) (name : String) :
    (∀ r ∈ (run_task ts fuel name initState).state.records,
      (r.status = .SUCCESS ∨ r.status = .FAILED) ∧
      ∃ c, r.completed_at = some c ∧ r.triggered_at ≤ c) ∧
    (∀ e ∈ (run_task ts fuel name initState).state.events, goodEvent e) ∧
    (∀ rid, countInsertE rid (run_task ts fuel name initState).state.events
          = countFinalE rid (run_task ts fuel name initState).state.events ∧
        countInsertE rid (run_task ts fuel name initState).state.events ≤ 1) := by
  have hInv0 : Inv initState := by
    constructor
    · intro r hr
      simp [initState] at hr
    · intro e he
      simp [initState] at he
  have h : StepOK initState (run_task ts fuel name initState).state :=
    exec_StepOK ts fuel (.task name) initState hInv0
  refine ⟨?_, ?_, ?_⟩
  · intro r hr
    rcases h.newRec r hr with hmem | ⟨hst, c, hc, hle, _⟩
    · simp [initState] at hmem
    · exact ⟨hst, c, hc, hle⟩
  · intro e he
    rcases h.newEv e he with hmem | hgood
    · simp [initState] at hmem
    · exact hgood
  · intro rid
    have z1 : countInsertE rid initState.events = 0 := by
      simp [initState, countInsertE]
    have z2 : countFinalE rid initState.events = 0 := by
      simp [initState, countFinalE]
    rcases h.pair rid with ⟨h1, h2⟩ | ⟨_, _, h1, h2⟩ <;> omega

/-- C1: REFUTED — the intra-chain de-duplication the claim promises never
happens.  The first line of `run_task`, `_executed = _executed or set()`,
replaces an empty incoming set (which every recursive call within a
top-level run receives, since `_executed.add` only runs at the very end
of a frame) by a fresh set, so the membership check at the top of
`run_task` never fires inside one chain.  In Scenario C — `shared` with
no dependencies, `a` and `b` each depending on `shared`, `root` depending
on `a` and `b` — running `root` invokes `shared`'s body twice and creates
two RunRecords for it: the table ends up with five rows, in order
`shared`, `a`, `shared` again, `b`, `root`. -/
theorem run_task_shared_dep_twice :
    run_task scC 10 "root" initState = .ok (.rid 4) stC ∧
    countRecName "shared" stC.records = 2 ∧
    countInvokeE "shared" stC.events = 2 ∧
    stC.records.length = 5 ∧
    stC.records.map (fun q => q.task_name)
      = ["shared", "a", "shared", "b", "root"] := by
  refine ⟨by decide, by decide, by decide, by decide, by decide⟩

theorem keys_register (ts : Tasks) (m : String) (t : TaskDef) :
    (register ts m t).map Prod.fst =
      if ts.any (fun p => p.1 == m) then ts.map Prod.fst
      else ts.map Prod.fst ++ [m] := by
  unfold register
  split
  · rw [List.map_map]
    apply List.map_congr_left
    intro p _
    by_cases h : (p.1 == m) = true
    · simp [Function.comp, h]
      exact (eq_of_beq h).symm
    · simp [Function.comp, h]
  · simp

theorem mem_keys_register {ts : Tasks} {m n : String} {t : TaskDef} :
    n ∈ (register ts m t).map Prod.fst ↔ n ∈ ts.map Prod.fst ∨ n = m := by
  rw [keys_register]
  split
  · next hany =>
    simp only [List.any_eq_true] at hany
    obtain ⟨p, hp, hpm⟩ := hany
    constructor
    · exact Or.inl
    · intro h
      rcases h with h | h
      · exact h
      · subst h
        have : p.1 = n := eq_of_beq hpm
        exact this ▸ List.mem_map_of_mem Prod.fst hp
  · simp

theorem nodup_keys_register {ts : Tasks} {m : String} {t : TaskDef}
    (h : (ts.map Prod.fst).Nodup) :
    ((register ts m t).map Prod.fst).Nodup := by
  rw [keys_register]
  split
  · exact h
  · next hany =>
    rw [List.nodup_append]
    refine ⟨h, List.nodup_singleton m, ?_⟩
    intro n hn hm
    simp at hm
    subst hm
    simp only [List.mem_map] at hn
    obtain ⟨p, hp, hpn⟩ := hn
    exact hany (List.any_eq_true.mpr ⟨p, hp, by simp [hpn]⟩)

theorem applyRegs_go_mem (rs : List (String × TaskDef)) :
    ∀ (acc : Tasks) (n : String),
      n ∈ ((rs.foldl (fun ts p => register ts p.1 p.2) acc).map Prod.fst) ↔
        n ∈ acc.map Prod.fst ∨ n ∈ rs.map Prod.fst := by
  induction rs with
  | nil =>
    intro acc n
    simp
  | cons p rs ih =>
    intro acc n
    rw [List.foldl_cons, ih (register acc p.1 p.2) n]
    rw [mem_keys_register]
    simp
    tauto

theorem applyRegs_go_nodup (rs : List (String × TaskDef)) :
    ∀ acc : Tasks, (acc.map Prod.fst).Nodup →
      ((rs.foldl (fun ts p => register ts p.1 p.2) acc).map Prod.fst).Nodup := by
  induction rs with
  | nil =>
    intro acc h
    exact h
  | cons p rs ih =>
    intro acc h
    rw [List.foldl_cons]
    exact ih (register acc p.1 p.2) (nodup_keys_register h)

theorem list_tasks_sorted_aux (ts : Tasks) :
    List.Sorted (· ≤ ·) (list_tasks ts) := by
  unfold list_tasks
  have htrans : ∀ a b c : String,
      (decide (a ≤ b)) = true → (decide (b ≤ c)) = true → (decide (a ≤ c)) = true := by
    intro a b c h1 h2
    simp at h1 h2 ⊢
    exact le_trans h1 h2
  have htotal : ∀ a b : String, ((decide (a ≤ b)) || (decide (b ≤ a))) = true := by
    intro a b
    simpa using le_total a b
  have h := List.sorted_mergeSort htrans htotal (ts.map Prod.fst)
  exact h.imp fun hab => of_decide_eq_true hab

/-- C8: `list_tasks` lists exactly the registered names, always in
ascending lexicographic (dictionary) order, and its output depends only
on which registrations were made, not on their order: permuting the
sequence of `register` calls leaves the listing unchanged. -/
theorem list_tasks_sorted :
    (∀ ts : Tasks, List.Sorted (· ≤ ·) (list_tasks ts)) ∧
    (∀ (ts : Tasks) (n : String), n ∈ list_tasks ts ↔ n ∈ ts.map Prod.fst) ∧
    (∀ rs1 rs2 : List (String × TaskDef), rs1.Perm rs2 →
      list_tasks (applyRegs rs1) = list_tasks (applyRegs rs2)) := by
  refine ⟨list_tasks_sorted_aux, ?_, ?_⟩
  · intro ts n
    unfold list_tasks
    exact (List.mergeSort_perm (ts.map Prod.fst) _).mem_iff
  · intro rs1 rs2 hperm
    have hn1 : ((applyRegs rs1).map Prod.fst).Nodup :=
      applyRegs_go_nodup rs1 [] (by simp)
    have hn2 : ((applyRegs rs2).map Prod.fst).Nodup :=
      applyRegs_go_nodup rs2 [] (by simp)
    have hmem : ∀ n, n ∈ (applyRegs rs1).map Prod.fst ↔
        n ∈ (applyRegs rs2).map Prod.fst := by
      intro n
      rw [applyRegs, applyRegs, applyRegs_go_mem rs1 [] n, applyRegs_go_mem rs2 [] n]
      constructor
      · intro h
        rcases h with h | h
        · simp at h
        · exact Or.inr ((hperm.map Prod.fst).mem_iff.mp h)
      · intro h
        rcases h with h | h
        · simp at h
        · exact Or.inr ((hperm.map Prod.fst).mem_iff.mpr h)
    have hkeys : ((applyRegs rs1).map Prod.fst).Perm ((applyRegs rs2).map Prod.fst) :=
      (List.perm_ext_iff_of_nodup hn1 hn2).mpr hmem
    have hlperm : (list_tasks (applyRegs rs1)).Perm (list_tasks (applyRegs rs2)) := by
      unfold list_tasks
      exact ((List.mergeSort_perm _ _).trans hkeys).trans (List.mergeSort_perm _ _).symm
    exact List.eq_of_perm_of_sorted hlperm
      (list_tasks_sorted_aux (applyRegs rs1)) (list_tasks_sorted_aux (applyRegs rs2))

theorem Inv_initState : Inv initState := by
  constructor
  · intro r hr
    simp [initState] at hr
  · intro e he
    simp [initState] at he

/-- Witness for C10: a seeded execution set containing `seeded` makes the
call return the empty string and leave the state untouched. -/
theorem run_task_already_executed_witness :
    ("seeded" ∈ stEx.executed ∧ stEx.executed ≠ []) ∧
    run_task scA 5 "seeded" stEx = .ok .empty stEx :=
  ⟨⟨by decide, by decide⟩, @run_task_already_executed scA 4 "seeded" stEx (by decide)⟩

/-- Witness for C5: Scenario D — running `nonexistent` fails with the
unknown-task error and writes zero RunRecords. -/
theorem run_task_unknown_task_witness :
    ("nonexistent" ∉ initState.executed ∧ lookupTask scA "nonexistent" = none) ∧
    (run_task scA 5 "nonexistent" initState
        = .err (.unknownTask "nonexistent") initState ∧
      initState.records = []) :=
  ⟨⟨by decide, rfl⟩,
   ⟨@run_task_unknown_task scA 4 "nonexistent" initState (by decide) rfl, rfl⟩⟩

/-- Witness for C3: Scenario B's failing `base` leaves one FAILED row
whose error is the message `boom` plus the diagnostic trace, and the
propagated failure carries the run identifier `0`. -/
theorem run_task_body_failure_witness :
    (Inv initState ∧ "base" ∉ initState.executed ∧
      lookupTask scB "base" = some taskBbase ∧
      taskBbase.func = .raises "boom" ∧
      exec scB 9 (.deps taskBbase.dependencies) initState = .ok .empty initState) ∧
    run_task scB 10 "base" initState =
      .err (.taskFailed "base" 0)
        { records := [failedRecord "base" "boom" initState],
          events := [.insert 0 "base" .RUNNING 0, .invoke "base",
                     .final 0 1 .FAILED none (some (formatError "boom"))],
          executed := [], nextId := 1, clock := 2 } :=
  ⟨⟨Inv_initState, by decide, rfl, rfl, by decide⟩,
   (@run_task_body_failure scB 9 "base" "boom" taskBbase initState initState .empty
      Inv_initState (by decide) rfl rfl (by decide)).1⟩

/-- Witness for C4: Scenario B — running `dependent` propagates the
failure of `base` (run identifier `0`, message `boom`) unchanged, and
`dependent` itself ends with no RunRecord and no body invocation. -/
theorem run_task_dep_failure_witness :
    (RankedB scB rankB ∧ Inv initState ∧ "dependent" ∉ initState.executed ∧
      lookupTask scB "dependent" = some taskBdep ∧
      exec scB 9 (.deps taskBdep.dependencies) initState
        = .err (.taskFailed "base" 0) sdB) ∧
    (run_task scB 10 "dependent" initState = .err (.taskFailed "base" 0) sdB ∧
      countInvokeE "dependent" sdB.events = countInvokeE "dependent" initState.events ∧
      countRecName "dependent" sdB.records = countRecName "dependent" initState.records) ∧
    countRecName "dependent" sdB.records = 0 ∧ sdB.records.length = 1 :=
  ⟨⟨by decide, Inv_initState, by decide, rfl, by decide⟩,
   @run_task_dep_failure scB rankB 9 "dependent" "base" 0 taskBdep initState sdB
     (by decide) Inv_initState (by decide) rfl (by decide),
   by decide, by decide⟩

/-- Witness for C7: Scenario A — running `base` finalizes its row to
SUCCESS with artifacts holding the serialisation of the returned object,
returns the fresh run identifier `0`, and the artifacts text is exactly
the serialised one-field object. -/
theorem run_task_success_witness :
    (Inv initState ∧ "base" ∉ initState.executed ∧
      lookupTask scA "base" = some taskA ∧
      taskA.func = .ok (some (.obj [("n", .num 1)])) ∧
      exec scA 4 (.deps taskA.dependencies) initState = .ok .empty initState) ∧
    run_task scA 5 "base" initState =
      .ok (.rid 0)
        { records := [successRecord "base" (some (.obj [("n", .num 1)])) initState],
          events := [.insert 0 "base" .RUNNING 0, .invoke "base",
                     .final 0 1 .SUCCESS
                       ((some (Json.obj [("n", Json.num 1)])).map Json.dumps) none],
          executed := [], nextId := 1, clock := 2 } ∧
    (runBody "base" taskA.func initState).state.executed = ["base"] ∧
    (successRecord "base" (some (.obj [("n", .num 1)])) initState).artifacts
      = some "\x7b\"n\": 1\x7d" :=
  ⟨⟨Inv_initState, by decide, rfl, rfl, by decide⟩,
   (@run_task_success scA 4 "base" taskA (some (.obj [("n", .num 1)]))
      initState initState .empty Inv_initState (by decide) rfl rfl (by decide)).1,
   (@run_task_success scA 4 "base" taskA (some (.obj [("n", .num 1)]))
      initState initState .empty Inv_initState (by decide) rfl rfl (by decide)).2.1,
   by decide⟩

/-- Witness for C2: Scenario C — the successful run of `root` decomposes
into the dependency walk followed by the three tail events for `root`
itself, and `root`'s run identifier is the one fresh after the walk. -/
theorem run_task_ordering_witness :
    (Inv initState ∧ "root" ∉ initState.executed ∧
      lookupTask scC "root" = some taskRoot ∧
      run_task scC 10 "root" initState = .ok (.rid 4) stC) ∧
    (∃ r sd result,
      exec scC 9 (.deps taskRoot.dependencies) initState = .ok r sd ∧
      taskRoot.func = .ok result ∧
      (Ret.rid 4 : Ret) = .rid sd.nextId ∧
      stC.records = sd.records ++ [successRecord "root" result sd] ∧
      stC.events = sd.events ++
        [.insert sd.nextId "root" .RUNNING sd.clock, .invoke "root",
         .final sd.nextId (sd.clock + 1) .SUCCESS (result.map Json.dumps) none]) :=
  ⟨⟨Inv_initState, by decide, rfl, by decide⟩,
   run_task_ordering.1 scC 9 "root" taskRoot initState stC (.rid 4)
     Inv_initState (by decide) rfl (by decide)⟩

/-- Witness for C6: Scenario A's single RunRecord is terminal with a
completion time at or after its trigger time. -/
theorem run_record_lifecycle_witness :
    recA ∈ (run_task scA 5 "base" initState).state.records ∧
    ((recA.status = .SUCCESS ∨ recA.status = .FAILED) ∧
      ∃ c, recA.completed_at = some c ∧ recA.triggered_at ≤ c) :=
  ⟨by decide, (run_record_lifecycle scA 5 "base").1 recA (by decide)⟩

/-- Witness for C8: registering `b` then `a` lists the same as
registering `a` then `b`. -/
theorem list_tasks_sorted_witness :
    regsW1.Perm regsW2 ∧
    list_tasks (applyRegs regsW1) = list_tasks (applyRegs regsW2) :=
  ⟨List.Perm.swap ("a", taskA) ("b", taskShared) [],
   list_tasks_sorted.2.2 regsW1 regsW2
     (List.Perm.swap ("a", taskA) ("b", taskShared) [])⟩

end NextGen
